import Mathlib

/-!
Shallow embedding of the vector-grouping core of Harper2123/Visual-Search.

Embedded source files:
  * src/k_means.py      (class KMeans: Lloyd's algorithm, the BatchClusterer)
  * src/vector_database.py (class VectorDatabase: the IncrementalGrouper state
    self.vectors, _add_vector_to_group, insert_vectors, get_similar_vectors)

Modelling conventions:
  * Python floats are modelled exactly: vector entries as rationals, values
    computed through square roots (cosine similarity) as real numbers.
  * numpy argmin over Euclidean norms is modelled as first-minimum over
    squared Euclidean distances: sqrt is strictly monotone, so in exact
    arithmetic the minimising index (first occurrence on ties) is the same.
  * numpy mean over an empty cluster produces NaN; NaN has no counterpart in
    an exact-number model, so an update step that hits an empty cluster is
    modelled as the failure value none (these runs are outside the claims
    proved below, which either exclude them by hypothesis or never reach them).
  * A raised Python exception is modelled as the failure value none.
-/

set_option maxHeartbeats 1000000

/-- A feature vector of fixed dimension d, entries exact rationals. -/
abbrev Vec (d : ℕ) : Type := Fin d → ℚ

/-- Default numpy relative tolerance 1e-5 (np.allclose). -/
def rtol : ℚ := 1 / 100000

/-- Default numpy absolute tolerance 1e-8 (np.allclose). -/
def atol : ℚ := 1 / 100000000

/-- Componentwise numpy closeness: abs (a - b) <= atol + rtol * abs b. -/
def approxEq {d : ℕ} (a b : Vec d) : Prop :=
  ∀ i, |a i - b i| ≤ atol + rtol * |b i|

instance approxEqDecidable {d : ℕ} (a b : Vec d) : Decidable (approxEq a b) :=
  inferInstanceAs (Decidable (∀ i, |a i - b i| ≤ atol + rtol * |b i|))

namespace KMeans

/-- Squared Euclidean distance; np.linalg.norm without the final sqrt (the
sqrt is dropped because only argmin comparisons use it, see file header). -/
def distSq {d : ℕ} (a b : Vec d) : ℚ := ∑ i, (a i - b i) ^ 2

/-- Index of the first minimum of a list, as np.argmin: ties keep the
earliest index.  (np.argmin raises on an empty axis; the empty case is
handled at the call site in fitLoop, this function is only used nonempty.) -/
def argminIdx : List ℚ → ℕ
  | [] => 0
  | [_] => 0
  | a :: b :: t =>
      if (b :: t).getD (argminIdx (b :: t)) 0 < a then argminIdx (b :: t) + 1 else 0

/-- Label of one data point: index of the nearest centroid
(labels = np.argmin(distances, axis=1), one row of distances). -/
def assignIdx {d : ℕ} (cs : List (Vec d)) (x : Vec d) : ℕ :=
  argminIdx (cs.map (fun c => distSq x c))

/-- The assignment step: labels = np.argmin(distances, axis=1). -/
def assign {d : ℕ} (X cs : List (Vec d)) : List ℕ := X.map (assignIdx cs)

/-- The boolean mask selection X[labels == j]. -/
def cluster {d : ℕ} (X : List (Vec d)) (labels : List ℕ) (j : ℕ) : List (Vec d) :=
  ((X.zip labels).filter (fun p => p.2 == j)).map Prod.fst

/-- Coordinatewise mean of a list of vectors (X[labels == j].mean(axis=0)).
Only used on nonempty lists; the empty case is fenced off in update. -/
def meanVec {d : ℕ} (l : List (Vec d)) : Vec d :=
  fun i => (l.map (fun v => v i)).sum / (l.length : ℚ)

/-- The update step: new_centroids = [X[labels == j].mean(axis=0) for j in
range(k)].  numpy yields NaN rows for empty clusters; modelled as none. -/
def update {d : ℕ} (X : List (Vec d)) (k : ℕ) (labels : List ℕ) :
    Option (List (Vec d)) :=
  if (List.range k).all (fun j => !(cluster X labels j).isEmpty)
  then some ((List.range k).map (fun j => meanVec (cluster X labels j)))
  else none

/-- One scalar comparison of np.allclose with default tolerances. -/
def closeVal (a b : ℚ) : Bool := decide (|a - b| ≤ atol + rtol * |b|)

/-- Componentwise np.allclose on one pair of vectors. -/
def closeVec {d : ℕ} (a b : Vec d) : Bool := decide (approxEq a b)

/-- np.allclose(self.centroids, new_centroids) over the two centroid arrays. -/
def allclose {d : ℕ} (cs ds : List (Vec d)) : Bool :=
  (cs.length == ds.length) && (cs.zip ds).all (fun p => closeVec p.1 p.2)

/-- The for-loop of KMeans.fit.  Fuel is the remaining number of iterations
(max_iter at the top call).  Faithful points of the source:
  * fuel 0 means range(max_iter) was empty so the local variable labels was
    never bound and the return statement raises NameError: modelled none;
  * np.argmin over an empty centroid list raises for a nonempty dataset:
    modelled none;
  * on convergence (allclose) the loop breaks BEFORE self.centroids is
    overwritten, so the returned centroids are the pre-update ones;
  * when the final iteration does not converge, the returned centroids are
    the freshly updated ones while the returned labels were computed from
    the centroids before that update (the source returns exactly this). -/
def fitLoop {d : ℕ} (X : List (Vec d)) (k : ℕ) :
    ℕ → List (Vec d) → Option (List (Vec d) × List ℕ)
  | 0, _ => none
  | m + 1, c =>
      if X ≠ [] ∧ c = [] then none
      else
        match update X k (assign X c) with
        | none => none
        | some newC =>
            if allclose c newC then some (c, assign X c)
            else if m = 0 then some (newC, assign X c)
            else fitLoop X k m newC

/-- Modelled from the spec: np.random.seed(seed) followed by
np.random.choice(n, k, replace=False) is numpy library code, not part of this
repository.  The spec states sampling is k distinct dataset indices, made
deterministic by the seed; numpy raises ValueError when k > n (cannot sample
more items than the population without replacement).  The model returns a
deterministic list of k distinct indices in [0, n) when k ≤ n, and the
failure value none when k > n. -/
def sampleIndices (seed n k : ℕ) : Option (List ℕ) :=
  if k ≤ n then some (((List.range n).rotate (seed % n)).take k) else none

/-- Centroid initialisation self.centroids = X[np.random.choice(...)] on the
path where init_centroids is None. -/
def initCentroids {d : ℕ} (X : List (Vec d)) (k seed : ℕ) :
    Option (List (Vec d)) :=
  (sampleIndices seed X.length k).map (fun idxs => idxs.map (fun i => X.getD i (fun _ => 0)))

/-- KMeans(k, random_state=seed).fit(X, max_iter, init_centroids).
init = none is the sampling path; init = some cs uses cs unchecked, exactly
as the source assigns self.centroids = init_centroids with no validation. -/
def fit {d : ℕ} (X : List (Vec d)) (k maxIter seed : ℕ)
    (init : Option (List (Vec d))) : Option (List (Vec d) × List ℕ) :=
  match init with
  | some c => fitLoop X k maxIter c
  | none => (initCentroids X k seed).bind (fun c => fitLoop X k maxIter c)

/-- Sum over the dataset of squared distance of each vector to its assigned
centroid (the k-means objective for one (labels, centroids) pair). -/
def sse {d : ℕ} (X : List (Vec d)) (labels : List ℕ) (cs : List (Vec d)) : ℚ :=
  ((X.zip labels).map (fun p => distSq p.1 (cs.getD p.2 (fun _ => 0)))).sum

end KMeans

open scoped Classical

namespace VectorDatabase

/-- Sum of squared entries of a vector (exact rational). -/
def sumSq {d : ℕ} (a : Vec d) : ℚ := ∑ i, (a i) ^ 2

/-- Dot product (exact rational). -/
def dotQ {d : ℕ} (a b : Vec d) : ℚ := ∑ i, a i * b i

/-- The row norm used by sklearn cosine_similarity: sklearn normalize
replaces a zero norm by 1 before dividing, so a zero vector passes through
unchanged and no error is raised. -/
noncomputable def normR {d : ℕ} (a : Vec d) : ℝ :=
  if sumSq a = 0 then 1 else Real.sqrt ((sumSq a : ℚ) : ℝ)

/-- sklearn.metrics.pairwise.cosine_similarity([a], [b])[0][0]: the dot
product of the two rows after each is divided by its (zero-guarded) norm. -/
noncomputable def cosSimR {d : ℕ} (a b : Vec d) : ℝ :=
  ((dotQ a b : ℚ) : ℝ) / (normR a * normR b)

/-- The state self.vectors: a Python dict keyed by a float similarity score,
values are the groups (lists of vectors), in insertion order. -/
abbrev StoreR (d : ℕ) : Type := List (ℝ × List (Vec d))

/-- The similarity scan of _add_vector_to_group: cosine similarity of v
against every vector of every existing group, groups in dict order. -/
noncomputable def simsAll {d : ℕ} (st : StoreR d) (v : Vec d) : List ℝ :=
  ((st.map Prod.snd).flatten).map (fun w => cosSimR v w)

/-- max(cosine_similarities, default=0). -/
noncomputable def maxD : List ℝ → ℝ
  | [] => 0
  | a :: t => t.foldl max a

/-- The dict write self.vectors[m] = val restricted to the case where key m
already exists (the value is replaced in place, insertion order kept). -/
noncomputable def setExisting {d : ℕ} (st : StoreR d) (m : ℝ)
    (val : List (Vec d)) : StoreR d :=
  st.map (fun p => if p.1 = m then (m, val) else p)

/-- The for-loop over self.vectors.items() in _add_vector_to_group, with
Python's live-dict iteration semantics.  acc holds the already visited items
in reverse, the second list the items not yet visited.
  * key match (max_similarity == similarity): the vector is appended to that
    group and the loop breaks;
  * otherwise the loop body executes self.vectors[max_similarity] = [vector].
    If the key exists anywhere in the dict the value is replaced in place and
    iteration continues; if it does not exist, the dict grows, and Python
    raises RuntimeError (dictionary changed size during iteration) at the
    very next step of the iterator: modelled none. -/
noncomputable def groupIter {d : ℕ} (m : ℝ) (v : Vec d) :
    StoreR d → StoreR d → Option (StoreR d)
  | acc, [] => some acc.reverse
  | acc, (s, g) :: rest =>
      if m = s then some (acc.reverse ++ (s, g ++ [v]) :: rest)
      else if (∃ p ∈ acc, p.1 = m) ∨ (∃ p ∈ rest, p.1 = m) then
        groupIter m v ((s, g) :: setExisting acc m [v]) (setExisting rest m [v])
      else none
termination_by _ l => l.length
decreasing_by simp [setExisting]

/-- _add_vector_to_group(vector, id_): the id_ parameter is unused by the
body; the method only reads and mutates self.vectors.  Note the loop over
self.vectors.items() is skipped entirely when the dict is empty, so in that
case the state is returned unchanged and the vector is stored nowhere. -/
noncomputable def addVectorToGroup {d : ℕ} (st : StoreR d) (v : Vec d) :
    Option (StoreR d) :=
  groupIter (maxD (simsAll st v)) v [] st

/-- The grouping effect of insert_vectors(vectors): after the external Milvus
insert (out of scope, external collaborator), _add_vector_to_group is called
once per vector in input order, threading self.vectors. -/
noncomputable def insertVectors {d : ℕ} (st : StoreR d) (vs : List (Vec d)) :
    Option (StoreR d) :=
  vs.foldlM (fun s v => addVectorToGroup s v) st

/-- All vectors held in groups, groups in dict order then group order
(the iteration order of get_similar_vectors). -/
def storedVectors {d : ℕ} (st : StoreR d) : List (Vec d) :=
  (st.map Prod.snd).flatten

/-- get_similar_vectors(vector, threshold): scans every vector of every
group and keeps those with cosine_sim >= threshold.  Modelled in
state-passing style; the second component is the state self.vectors after
the call (the body never writes to self). -/
noncomputable def getSimilarVectors {d : ℕ} (st : StoreR d) (q : Vec d)
    (t : ℝ) : List (Vec d) × StoreR d :=
  ((storedVectors st).filter (fun w => decide (t ≤ cosSimR q w)), st)

/-- Number of groups of the store that contain v as a member. -/
def countGroupsContaining {d : ℕ} (st : StoreR d) (v : Vec d) : ℕ :=
  (st.filter (fun p => decide (v ∈ p.2))).length

end VectorDatabase

/-! ## Theorems about the KMeans embedding -/

namespace KMeans

/-- Zero vector used as the out-of-bounds default for getD (never reached
in bounds-checked uses). -/
def zv {d : ℕ} : Vec d := fun _ => 0

theorem argminIdx_lt_length : ∀ (l : List ℚ), l ≠ [] → argminIdx l < l.length
  | [], h => absurd rfl h
  | [_], _ => by simp [argminIdx]
  | a :: b :: t, _ => by
      have ih := argminIdx_lt_length (b :: t) (by simp)
      simp only [List.length_cons] at ih
      by_cases hlt : (b :: t).getD (argminIdx (b :: t)) 0 < a
      · simp only [argminIdx, if_pos hlt, List.length_cons]
        omega
      · simp only [argminIdx, if_neg hlt, List.length_cons]
        omega

theorem argminIdx_le_getD : ∀ (l : List ℚ) (j : ℕ), j < l.length →
    l.getD (argminIdx l) 0 ≤ l.getD j 0
  | [], j, h => by simp at h
  | [a], 0, _ => le_refl _
  | [a], j + 1, h => by simp at h
  | a :: b :: t, j, h => by
      by_cases hlt : (b :: t).getD (argminIdx (b :: t)) 0 < a
      · simp only [argminIdx, if_pos hlt, List.getD_cons_succ]
        cases j with
        | zero => exact le_of_lt hlt
        | succ j =>
            exact argminIdx_le_getD (b :: t) j (by simpa using h)
      · simp only [argminIdx, if_neg hlt, List.getD_cons_zero]
        cases j with
        | zero => exact le_refl a
        | succ j =>
            have h2 := argminIdx_le_getD (b :: t) j (by simpa using h)
            simp only [List.getD_cons_succ]
            exact le_trans (le_of_not_lt hlt) h2

theorem assignIdx_lt {d : ℕ} (cs : List (Vec d)) (x : Vec d) (h : cs ≠ []) :
    assignIdx cs x < cs.length := by
  have := argminIdx_lt_length (cs.map (fun c => distSq x c)) (by simpa using h)
  simpa [assignIdx] using this

theorem getD_map_distSq {d : ℕ} (cs : List (Vec d)) (x : Vec d) (j : ℕ)
    (hj : j < cs.length) :
    (cs.map (fun c => distSq x c)).getD j 0 = distSq x (cs.getD j zv) := by
  rw [List.getD_eq_getElem _ _ (by simpa using hj), List.getD_eq_getElem _ _ hj,
    List.getElem_map]

theorem assignIdx_min {d : ℕ} (cs : List (Vec d)) (x : Vec d) (j : ℕ)
    (hj : j < cs.length) :
    distSq x (cs.getD (assignIdx cs x) zv) ≤ distSq x (cs.getD j zv) := by
  have hne : cs ≠ [] := by
    intro h
    rw [h] at hj
    simp at hj
  have hlt2 : argminIdx (cs.map (fun c => distSq x c)) < cs.length := by
    simpa using argminIdx_lt_length (cs.map (fun c => distSq x c)) (by simpa using hne)
  have h1 := argminIdx_le_getD (cs.map (fun c => distSq x c)) j (by simpa using hj)
  rw [getD_map_distSq cs x j hj] at h1
  rw [getD_map_distSq cs x (argminIdx (cs.map (fun c => distSq x c))) hlt2] at h1
  simpa [assignIdx] using h1

theorem assign_length {d : ℕ} (X cs : List (Vec d)) : (assign X cs).length = X.length :=
  List.length_map _ _

theorem mem_assign_lt {d : ℕ} (X cs : List (Vec d)) (h : cs ≠ []) :
    ∀ m ∈ assign X cs, m < cs.length := by
  intro m hm
  simp only [assign, List.mem_map] at hm
  obtain ⟨x, _, rfl⟩ := hm
  exact assignIdx_lt cs x h

theorem update_some_length {d : ℕ} (X : List (Vec d)) (k : ℕ) (labels : List ℕ)
    (cs : List (Vec d)) (h : update X k labels = some cs) : cs.length = k := by
  simp only [update] at h
  split at h
  · cases h
    simp
  · cases h

theorem update_cluster_ne {d : ℕ} (X : List (Vec d)) (k : ℕ) (labels : List ℕ)
    (cs : List (Vec d)) (h : update X k labels = some cs) (j : ℕ) (hj : j < k) :
    cluster X labels j ≠ [] := by
  simp only [update] at h
  split at h
  · rename_i hc
    rw [List.all_eq_true] at hc
    have := hc j (List.mem_range.mpr hj)
    simpa [List.isEmpty_iff] using this
  · cases h

theorem update_getD {d : ℕ} (X : List (Vec d)) (k : ℕ) (labels : List ℕ)
    (cs : List (Vec d)) (h : update X k labels = some cs) (j : ℕ) (hj : j < k) :
    cs.getD j zv = meanVec (cluster X labels j) := by
  simp only [update] at h
  split at h
  · cases h
    rw [List.getD_eq_getElem _ _ (by simpa using hj), List.getElem_map]
    simp
  · cases h

theorem fitLoop_shape {d : ℕ} (X : List (Vec d)) (k : ℕ) (hk : 0 < k) :
    ∀ (maxIter : ℕ) (c cs : List (Vec d)) (ls : List ℕ),
    c.length = k → fitLoop X k maxIter c = some (cs, ls) →
    cs.length = k ∧ ls.length = X.length ∧ ∀ m ∈ ls, m < k := by
  intro maxIter
  induction maxIter with
  | zero => intro c cs ls _ h; simp [fitLoop] at h
  | succ m ih =>
      intro c cs ls hc h
      have hcne : c ≠ [] := by
        intro hnil
        rw [hnil] at hc
        simp at hc
        omega
      rw [fitLoop] at h
      rw [if_neg (by simp [hcne])] at h
      cases hu : update X k (assign X c) with
      | none => rw [hu] at h; cases h
      | some newC =>
          rw [hu] at h
          simp only at h
          have hnew : newC.length = k := update_some_length X k (assign X c) newC hu
          by_cases hcl : allclose c newC = true
          · rw [if_pos hcl] at h
            cases h
            refine ⟨hc, assign_length X c, ?_⟩
            intro mm hmm
            have := mem_assign_lt X c hcne mm hmm
            omega
          · rw [if_neg hcl] at h
            by_cases hm : m = 0
            · rw [if_pos hm] at h
              cases h
              refine ⟨hnew, assign_length X c, ?_⟩
              intro mm hmm
              have := mem_assign_lt X c hcne mm hmm
              omega
            · rw [if_neg hm] at h
              exact ih newC cs ls hnew h

end KMeans

open KMeans in
/-- C3: for a dataset of n vectors and 1 ≤ k ≤ n, whenever fit (with sampled
initial centroids) returns a result, it consists of exactly k centroids and
exactly n labels, every label an index in [0, k).  Runs on which numpy would
produce NaN centroids (an empty cluster during update) return none in this
exact-arithmetic model and are excluded by the success hypothesis. -/
theorem c3_fit_k_centroids_n_labels {d : ℕ} (X : List (Vec d))
    (k maxIter seed : ℕ) (cs : List (Vec d)) (ls : List ℕ)
    (hk1 : 1 ≤ k) (hkn : k ≤ X.length)
    (hfit : fit X k maxIter seed none = some (cs, ls)) :
    cs.length = k ∧ ls.length = X.length ∧ ∀ m ∈ ls, m < k := by
  simp only [fit, initCentroids, sampleIndices, if_pos hkn, Option.map_some,
    Option.bind_eq_bind, Option.some_bind] at hfit
  refine fitLoop_shape X k (by omega) maxIter _ cs ls ?_ hfit
  simp only [List.length_map, List.length_take, List.length_rotate, List.length_range]
  omega

open KMeans in
/-- Witness for C3 at a concrete input: dataset [[0],[10]], k = 1,
max_iter = 1, seed = 0; fit succeeds with centroid [5] and labels [0, 0]. -/
theorem c3_witness :
    (1 ≤ 1 ∧ 1 ≤ ([![(0 : ℚ)], ![10]] : List (Vec 1)).length ∧
      fit (d := 1) [![0], ![10]] 1 1 0 none = some ([![5]], [0, 0])) ∧
    (([![(5 : ℚ)]] : List (Vec 1)).length = 1 ∧
      ([0, 0] : List ℕ).length = ([![(0 : ℚ)], ![10]] : List (Vec 1)).length ∧
      ∀ m ∈ ([0, 0] : List ℕ), m < 1) := by
  have hfit : fit (d := 1) [![0], ![10]] 1 1 0 none = some ([![5]], [0, 0]) := by
    have hmean : meanVec [![(0 : ℚ)], ![10]] = ![5] := by
      funext i
      simp [meanVec]
      norm_num
    have hassign : assign (d := 1) [![0], ![10]] [![0]] = [0, 0] := by
      simp [assign, assignIdx, argminIdx]
    have hupd : update (d := 1) [![0], ![10]] 1 [0, 0] = some [![5]] := by
      simp [update, cluster, List.filter, List.range_succ, hmean]
    have hall : allclose (d := 1) [![0]] [![5]] = false := by
      simp only [allclose, List.zip_cons_cons, List.zip_nil_right, List.all_cons,
        List.all_nil, closeVec, Bool.and_true, List.length_cons, List.length_nil,
        beq_self_eq_true, Bool.true_and, decide_eq_false_iff_not]
      intro hcl
      have := hcl 0
      norm_num [atol, rtol] at this
    have hinit : initCentroids (d := 1) [![0], ![10]] 1 0 = some [![0]] := by
      simp [initCentroids, sampleIndices, List.range_succ]
    simp only [fit, hinit, Option.bind_eq_bind, Option.some_bind]
    rw [fitLoop]
    simp only [hassign, hupd, hall]
    norm_num
  exact ⟨⟨le_refl 1, by norm_num, hfit⟩,
    c3_fit_k_centroids_n_labels [![0], ![10]] 1 1 0 [![5]] [0, 0]
      (le_refl 1) (by norm_num) hfit⟩

open KMeans in
/-- C5: fit is deterministic.  The embedding is a pure function of the
dataset, k, max_iterations and the seed: the process-global numpy random
state mutated by np.random.seed(seed) is modelled as the explicit seed
argument threaded into the sampling step, so two runs with equal arguments
(and no initial centroids supplied) return equal centroids and labels. -/
theorem c5_fit_deterministic {d : ℕ} (X1 X2 : List (Vec d))
    (k1 k2 m1 m2 s1 s2 : ℕ)
    (hX : X1 = X2) (hk : k1 = k2) (hm : m1 = m2) (hs : s1 = s2) :
    fit X1 k1 m1 s1 none = fit X2 k2 m2 s2 none := by
  subst hX hk hm hs
  rfl

open KMeans in
/-- Witness for C5 at a concrete input. -/
theorem c5_witness :
    fit (d := 1) [![0], ![10]] 1 3 42 none = fit (d := 1) [![0], ![10]] 1 3 42 none :=
  c5_fit_deterministic [![0], ![10]] [![0], ![10]] 1 1 3 3 42 42 rfl rfl rfl rfl

open KMeans in
/-- C6 counterexample: the claim states that an invalid cluster count is
rejected with an error before any clustering iteration begins.  At the
concrete input dataset [[1]] (n = 1) with k = 0, no InvalidClusterCount
check exists: the initialisation phase completes normally (numpy happily
samples zero indices, giving an empty centroid array), and the run fails
only inside the first iteration, when np.argmin is taken over the empty
centroid axis. -/
theorem c6_counterexample :
    initCentroids (d := 1) [![1]] 0 0 = some [] ∧
    fit (d := 1) [![1]] 0 5 0 none = none := by
  have hinit : initCentroids (d := 1) [![1]] 0 0 = some [] := by
    simp [initCentroids, sampleIndices]
  refine ⟨hinit, ?_⟩
  simp only [fit, hinit, Option.bind_eq_bind, Option.some_bind]
  rw [fitLoop]
  simp

open KMeans in
/-- C6 amended: no InvalidClusterCount error type exists in the code.  On
the path without initial centroids: when k > n the run fails before the
loop, because numpy refuses to sample k > n distinct indices; when k = 0
(and the dataset is nonempty) initialisation succeeds and the failure
surfaces only inside the first iteration, at the argmin over an empty
centroid axis, not before the loop.  When initial centroids are supplied
the source performs no validation of k at all. -/
theorem c6_fit_fails_out_of_range {d : ℕ} (X : List (Vec d))
    (k maxIter seed : ℕ) (hX : X ≠ []) (hm : 1 ≤ maxIter) :
    (X.length < k → fit X k maxIter seed none = none) ∧
    (k = 0 → initCentroids X k seed = some [] ∧ fit X k maxIter seed none = none) := by
  constructor
  · intro hlt
    have hnone : initCentroids X k seed = none := by
      simp [initCentroids, sampleIndices, if_neg (by omega : ¬ k ≤ X.length)]
    simp [fit, hnone]
  · intro hk0
    subst hk0
    have hinit : initCentroids X 0 seed = some [] := by
      simp [initCentroids, sampleIndices]
    refine ⟨hinit, ?_⟩
    obtain ⟨m, rfl⟩ : ∃ m, maxIter = m + 1 := ⟨maxIter - 1, by omega⟩
    simp only [fit, hinit, Option.bind_eq_bind, Option.some_bind]
    rw [fitLoop]
    simp [hX]

open KMeans in
/-- Witness for C6 (amended) at a concrete input: dataset [[1]], k = 2,
max_iter = 1; the sampling path fails. -/
theorem c6_witness :
    ([![(1 : ℚ)]] : List (Vec 1)) ≠ [] ∧ 1 ≤ 1 ∧
    fit (d := 1) [![1]] 2 1 0 none = none := by
  have h := c6_fit_fails_out_of_range (d := 1) [![1]] 2 1 0 (by simp) (le_refl 1)
  exact ⟨by simp, le_refl 1, h.1 (by norm_num)⟩

namespace KMeans

theorem distSq_nonneg {d : ℕ} (a b : Vec d) : 0 ≤ distSq a b :=
  Finset.sum_nonneg (fun _ _ => sq_nonneg _)

theorem sum_map_finsum {α : Type} {d : ℕ} (l : List α) (h : α → Fin d → ℚ) :
    (l.map (fun x => ∑ i, h x i)).sum = ∑ i, (l.map (fun x => h x i)).sum := by
  induction l with
  | nil => simp
  | cons x t ih => simp [ih, Finset.sum_add_distrib]

theorem sum_sq_expand (s : List ℚ) (c : ℚ) :
    (s.map (fun a => (a - c) ^ 2)).sum
      = (s.map (fun a => a ^ 2)).sum - 2 * c * s.sum + (s.length : ℚ) * c ^ 2 := by
  induction s with
  | nil => simp
  | cons a t ih =>
      simp only [List.map_cons, List.sum_cons, List.length_cons, ih]
      push_cast
      ring

theorem sum_sq_mean (s : List ℚ) (hs : s ≠ []) (c : ℚ) :
    (s.map (fun a => (a - s.sum / (s.length : ℚ)) ^ 2)).sum
      + (s.length : ℚ) * (s.sum / (s.length : ℚ) - c) ^ 2
      = (s.map (fun a => (a - c) ^ 2)).sum := by
  have hn : (s.length : ℚ) ≠ 0 := by
    have h1 : 0 < s.length := List.length_pos.mpr hs
    exact_mod_cast Nat.pos_iff_ne_zero.mp h1
  rw [sum_sq_expand, sum_sq_expand]
  field_simp
  ring

theorem mean_identity {d : ℕ} (l : List (Vec d)) (hl : l ≠ []) (c : Vec d) :
    (l.map (fun x => distSq x (meanVec l))).sum
      + (l.length : ℚ) * distSq (meanVec l) c
      = (l.map (fun x => distSq x c)).sum := by
  simp only [distSq]
  rw [sum_map_finsum l (fun x i => (x i - meanVec l i) ^ 2),
    sum_map_finsum l (fun x i => (x i - c i) ^ 2),
    Finset.mul_sum, ← Finset.sum_add_distrib]
  refine Finset.sum_congr rfl (fun i _ => ?_)
  have hs : (l.map (fun v => v i)) ≠ [] := by simpa using hl
  have h := sum_sq_mean (l.map (fun v => v i)) hs (c i)
  simp only [List.map_map, Function.comp_def, List.length_map] at h
  simpa [meanVec] using h

theorem mean_minimizes {d : ℕ} (l : List (Vec d)) (hl : l ≠ []) (c : Vec d) :
    (l.map (fun x => distSq x (meanVec l))).sum ≤ (l.map (fun x => distSq x c)).sum := by
  rw [← mean_identity l hl c]
  have h1 : 0 ≤ (l.length : ℚ) * distSq (meanVec l) c :=
    mul_nonneg (by positivity) (distSq_nonneg _ _)
  linarith

theorem sum_map_partition {α : Type} (X : List α) (k : ℕ) (f : α → ℕ) (g : α → ℚ)
    (hf : ∀ x ∈ X, f x < k) :
    (X.map g).sum = ∑ j ∈ Finset.range k, ((X.filter (fun x => f x == j)).map g).sum := by
  induction X with
  | nil => simp
  | cons x t ih =>
      have hx : f x < k := hf x (List.mem_cons_self x t)
      have ht : ∀ y ∈ t, f y < k := fun y hy => hf y (List.mem_cons_of_mem x hy)
      have hsplit : ∀ j ∈ Finset.range k,
          ((List.filter (fun y => f y == j) (x :: t)).map g).sum
            = (if f x = j then g x else 0)
              + ((t.filter (fun y => f y == j)).map g).sum := by
        intro j _
        by_cases h : f x = j
        · simp [List.filter_cons, h]
        · simp [List.filter_cons, h]
      rw [Finset.sum_congr rfl hsplit, Finset.sum_add_distrib, ← ih ht,
        Finset.sum_ite_eq (Finset.range k) (f x) (fun _ => g x)]
      simp [Finset.mem_range.mpr hx]

theorem cluster_assign {d : ℕ} (X cs : List (Vec d)) (j : ℕ) :
    cluster X (assign X cs) j = X.filter (fun x => assignIdx cs x == j) := by
  simp only [cluster, assign]
  have h1 : X.zip (X.map (assignIdx cs)) = X.map (fun x => (x, assignIdx cs x)) := by
    simpa using List.zip_map' id (assignIdx cs) X
  rw [h1, List.filter_map, List.map_map]
  simp [Function.comp_def]

theorem sse_assign_eq {d : ℕ} (X cs ds : List (Vec d)) :
    sse X (assign X cs) ds
      = (X.map (fun x => distSq x (ds.getD (assignIdx cs x) zv))).sum := by
  simp only [sse, assign]
  have h1 : X.zip (X.map (assignIdx cs)) = X.map (fun x => (x, assignIdx cs x)) := by
    simpa using List.zip_map' id (assignIdx cs) X
  rw [h1, List.map_map]
  rfl

theorem sse_update_le {d : ℕ} (X c newC : List (Vec d)) (k : ℕ)
    (hc : c.length = k) (hk : 0 < k)
    (hu : update X k (assign X c) = some newC) :
    (X.map (fun x => distSq x (newC.getD (assignIdx c x) zv))).sum
      ≤ (X.map (fun x => distSq x (c.getD (assignIdx c x) zv))).sum := by
  have hcne : c ≠ [] := by
    intro h
    rw [h] at hc
    simp at hc
    omega
  have hbound : ∀ x ∈ X, assignIdx c x < k := fun x _ => hc ▸ assignIdx_lt c x hcne
  rw [sum_map_partition X k (fun x => assignIdx c x) _ hbound,
    sum_map_partition X k (fun x => assignIdx c x) _ hbound]
  refine Finset.sum_le_sum (fun j hj => ?_)
  rw [Finset.mem_range] at hj
  have hmem : ∀ y ∈ X.filter (fun x => assignIdx c x == j), assignIdx c y = j := by
    intro y hy
    have := (List.mem_filter.mp hy).2
    simpa using this
  have e1 : (X.filter (fun x => assignIdx c x == j)).map
        (fun x => distSq x (newC.getD (assignIdx c x) zv))
      = (X.filter (fun x => assignIdx c x == j)).map
        (fun x => distSq x (newC.getD j zv)) :=
    List.map_congr_left (fun y hy => by rw [hmem y hy])
  have e2 : (X.filter (fun x => assignIdx c x == j)).map
        (fun x => distSq x (c.getD (assignIdx c x) zv))
      = (X.filter (fun x => assignIdx c x == j)).map
        (fun x => distSq x (c.getD j zv)) :=
    List.map_congr_left (fun y hy => by rw [hmem y hy])
  rw [e1, e2, update_getD X k (assign X c) newC hu j hj, ← cluster_assign X c j]
  exact mean_minimizes _ (update_cluster_ne X k (assign X c) newC hu j hj) _

theorem sse_argmin_le {d : ℕ} (X ds : List (Vec d)) (lbl : Vec d → ℕ)
    (hb : ∀ x ∈ X, lbl x < ds.length) :
    (X.map (fun x => distSq x (ds.getD (assignIdx ds x) zv))).sum
      ≤ (X.map (fun x => distSq x (ds.getD (lbl x) zv))).sum :=
  List.sum_le_sum (fun x hx => assignIdx_min ds x (lbl x) (hb x hx))

end KMeans

open KMeans in
/-- C4: across successive iterations of one fit run, the sum of squared
distances of each dataset vector to its assigned centroid never increases.
Stated for an arbitrary iteration of the loop: c is the centroid list some
iteration starts from (the loop invariant gives c.length = k), that
iteration computes labels assign X c and the updated centroids newC; the
next iteration assigns labels against newC.  Its objective
sse X (assign X newC) newC is bounded by this iteration's objective
sse X (assign X c) c.  (An iteration whose update hits an empty cluster
returns NaN in numpy and none here; such runs are excluded by hu.) -/
theorem c4_sse_nonincreasing {d : ℕ} (X c newC : List (Vec d)) (k : ℕ)
    (hc : c.length = k) (hk : 0 < k)
    (hu : update X k (assign X c) = some newC) :
    sse X (assign X newC) newC ≤ sse X (assign X c) c := by
  have hnew : newC.length = k := update_some_length X k (assign X c) newC hu
  have hcne : c ≠ [] := by
    intro h
    rw [h] at hc
    simp at hc
    omega
  rw [sse_assign_eq X newC newC, sse_assign_eq X c c]
  calc (X.map (fun x => distSq x (newC.getD (assignIdx newC x) zv))).sum
      ≤ (X.map (fun x => distSq x (newC.getD (assignIdx c x) zv))).sum :=
        sse_argmin_le X newC (fun x => assignIdx c x)
          (fun x _ => by rw [hnew]; exact hc ▸ assignIdx_lt c x hcne)
    _ ≤ (X.map (fun x => distSq x (c.getD (assignIdx c x) zv))).sum :=
        sse_update_le X c newC k hc hk hu

open KMeans in
/-- Witness for C4 at a concrete iteration: dataset [[0]], k = 1, current
centroids [[3]]; the update moves the centroid to the mean [0] and the
objective drops from 9 to 0. -/
theorem c4_witness :
    (([![(3 : ℚ)]] : List (Vec 1)).length = 1 ∧ 0 < 1 ∧
      update (d := 1) [![0]] 1 (assign [![0]] [![3]]) = some [![0]]) ∧
    sse (d := 1) [![0]] (assign [![0]] [![0]]) [![0]]
      ≤ sse (d := 1) [![0]] (assign [![0]] [![3]]) [![3]] := by
  have hass : assign (d := 1) [![0]] [![3]] = [0] := by
    simp [assign, assignIdx, argminIdx]
  have hmean : meanVec [![(0 : ℚ)]] = ![0] := by
    funext i
    simp [meanVec]
  have hu : update (d := 1) [![0]] 1 (assign [![0]] [![3]]) = some [![0]] := by
    rw [hass]
    simp [update, cluster, List.filter, List.range_succ, hmean]
  exact ⟨⟨by simp, Nat.one_pos, hu⟩,
    c4_sse_nonincreasing [![0]] [![3]] [![0]] 1 (by simp) Nat.one_pos hu⟩

/-! ## Theorems about the VectorDatabase embedding -/

namespace VectorDatabase

theorem addVectorToGroup_empty {d : ℕ} (v : Vec d) :
    addVectorToGroup ([] : StoreR d) v = some [] := by
  simp [addVectorToGroup, groupIter]

theorem insertVectors_empty_store {d : ℕ} (vs : List (Vec d)) :
    insertVectors ([] : StoreR d) vs = some [] := by
  induction vs with
  | nil => simp [insertVectors]
  | cons v t ih =>
      simp only [insertVectors, List.foldlM_cons]
      rw [addVectorToGroup_empty]
      simpa [insertVectors] using ih

theorem mem_getSimilarVectors {d : ℕ} (st : StoreR d) (q : Vec d) (t : ℝ)
    (v : Vec d) :
    v ∈ (getSimilarVectors st q t).1 ↔ v ∈ storedVectors st ∧ t ≤ cosSimR q v := by
  simp [getSimilarVectors, List.mem_filter]

end VectorDatabase

open VectorDatabase in
/-- C1: the claim states that inserting one vector into an empty store
creates exactly one group holding that vector, and a second identical
insert joins that group.  The code does neither: _add_vector_to_group
iterates over self.vectors.items(), and on an empty dict the loop body
never runs, so the method returns without storing the vector anywhere;
the store stays empty after both insertions (zero groups, not one).
This contradicts the method's own docstring (it claims to add the vector
to the appropriate group), so the claim is taken as the intent and the
code as the bug. -/
theorem c1_insert_into_empty_creates_no_group {d : ℕ} (v : Vec d) :
    insertVectors ([] : StoreR d) [v] = some [] ∧
    insertVectors ([] : StoreR d) [v, v] = some [] :=
  ⟨insertVectors_empty_store [v], insertVectors_empty_store [v, v]⟩

open VectorDatabase in
/-- C2: the claim states every inserted vector belongs to exactly one group
after its insertion.  In the code no insertion sequence ever populates
self.vectors (see C1), so after any sequence of inserts starting from the
initial empty state, every vector belongs to zero groups, violating the
invariant the moment the first vector is inserted. -/
theorem c2_inserted_vector_in_no_group {d : ℕ} (vs : List (Vec d))
    (stFinal : StoreR d)
    (h : insertVectors ([] : StoreR d) vs = some stFinal) (v : Vec d) :
    countGroupsContaining stFinal v = 0 := by
  rw [insertVectors_empty_store vs] at h
  injection h with h2
  subst h2
  rfl

open VectorDatabase in
/-- Witness for C2 at a concrete input: inserting [1] into a fresh store. -/
theorem c2_witness :
    insertVectors ([] : StoreR 1) [![1]] = some [] ∧
    countGroupsContaining ([] : StoreR 1) ![1] = 0 :=
  ⟨insertVectors_empty_store [![1]],
    c2_inserted_vector_in_no_group [![1]] [] (insertVectors_empty_store [![1]]) ![1]⟩

open VectorDatabase in
/-- C8: get_similar_vectors returns exactly the stored vectors, across all
groups in the state self.vectors, whose cosine similarity with the query is
at least the threshold: membership in the result holds iff the vector is a
member of some group and passes the threshold, independent of which group
holds it.  Quantified over arbitrary store states (the insertion bug of
C1/C2 means reachable states are empty; the retrieval scan itself is
exactly the claimed filter). -/
theorem c8_similar_to_filters_by_threshold {d : ℕ} (st : StoreR d) (q : Vec d)
    (t : ℝ) (v : Vec d) :
    v ∈ (getSimilarVectors st q t).1 ↔ v ∈ storedVectors st ∧ t ≤ cosSimR q v :=
  mem_getSimilarVectors st q t v

open VectorDatabase in
/-- C10: get_similar_vectors is a pure query: the state self.vectors after
the call (second component of the state-passing embedding) is the state it
was called in; the method body only reads the groups. -/
theorem c10_getSimilarVectors_pure {d : ℕ} (st : StoreR d) (q : Vec d) (t : ℝ) :
    (getSimilarVectors st q t).2 = st := rfl

namespace VectorDatabase

theorem sumSq_nonneg {d : ℕ} (a : Vec d) : 0 ≤ sumSq a :=
  Finset.sum_nonneg (fun _ _ => sq_nonneg _)

theorem dotQ_zero_left {d : ℕ} (a b : Vec d) (h : sumSq a = 0) : dotQ a b = 0 := by
  have hz := (Finset.sum_eq_zero_iff_of_nonneg (fun i _ => sq_nonneg (a i))).mp h
  refine Finset.sum_eq_zero (fun i hi => ?_)
  have hai : a i = 0 := by
    have h2 := hz i (Finset.mem_univ i)
    exact (pow_eq_zero_iff (by norm_num : (2 : ℕ) ≠ 0)).mp h2
  simp [hai]

theorem dotQ_zero_right {d : ℕ} (a b : Vec d) (h : sumSq b = 0) : dotQ a b = 0 := by
  have hz := (Finset.sum_eq_zero_iff_of_nonneg (fun i _ => sq_nonneg (b i))).mp h
  refine Finset.sum_eq_zero (fun i hi => ?_)
  have hbi : b i = 0 := by
    have h2 := hz i (Finset.mem_univ i)
    exact (pow_eq_zero_iff (by norm_num : (2 : ℕ) ≠ 0)).mp h2
  simp [hbi]

theorem cosSimR_zero_left {d : ℕ} (b : Vec d) : cosSimR (0 : Vec d) b = 0 := by
  simp [cosSimR, dotQ]

theorem cosSimR_zero_right {d : ℕ} (a : Vec d) : cosSimR a (0 : Vec d) = 0 := by
  simp [cosSimR, dotQ]

theorem cosSimR_le_one {d : ℕ} (a b : Vec d) : cosSimR a b ≤ 1 := by
  by_cases ha : sumSq a = 0
  · simp [cosSimR, dotQ_zero_left a b ha]
  by_cases hb : sumSq b = 0
  · simp [cosSimR, dotQ_zero_right a b hb]
  have hA : (0 : ℚ) < sumSq a := lt_of_le_of_ne (sumSq_nonneg a) (Ne.symm ha)
  have hB : (0 : ℚ) < sumSq b := lt_of_le_of_ne (sumSq_nonneg b) (Ne.symm hb)
  have hAR : (0 : ℝ) < ((sumSq a : ℚ) : ℝ) := by exact_mod_cast hA
  have hBR : (0 : ℝ) < ((sumSq b : ℚ) : ℝ) := by exact_mod_cast hB
  have hsA : 0 < Real.sqrt ((sumSq a : ℚ) : ℝ) := Real.sqrt_pos.mpr hAR
  have hsB : 0 < Real.sqrt ((sumSq b : ℚ) : ℝ) := Real.sqrt_pos.mpr hBR
  rw [cosSimR, normR, normR, if_neg ha, if_neg hb, div_le_one (by positivity)]
  have e1 : ((dotQ a b : ℚ) : ℝ) = ∑ i, ((a i : ℚ) : ℝ) * ((b i : ℚ) : ℝ) := by
    push_cast [dotQ]
    rfl
  have e2 : ((sumSq a : ℚ) : ℝ) = ∑ i, ((a i : ℚ) : ℝ) ^ 2 := by
    push_cast [sumSq]
    rfl
  have e3 : ((sumSq b : ℚ) : ℝ) = ∑ i, ((b i : ℚ) : ℝ) ^ 2 := by
    push_cast [sumSq]
    rfl
  have hcs : ((dotQ a b : ℚ) : ℝ) ^ 2 ≤ ((sumSq a : ℚ) : ℝ) * ((sumSq b : ℚ) : ℝ) := by
    rw [e1, e2, e3]
    exact Finset.sum_mul_sq_le_sq_mul_sq Finset.univ _ _
  calc ((dotQ a b : ℚ) : ℝ)
      ≤ |((dotQ a b : ℚ) : ℝ)| := le_abs_self _
    _ = Real.sqrt (((dotQ a b : ℚ) : ℝ) ^ 2) := (Real.sqrt_sq_eq_abs _).symm
    _ ≤ Real.sqrt (((sumSq a : ℚ) : ℝ) * ((sumSq b : ℚ) : ℝ)) := Real.sqrt_le_sqrt hcs
    _ = Real.sqrt ((sumSq a : ℚ) : ℝ) * Real.sqrt ((sumSq b : ℚ) : ℝ) :=
        Real.sqrt_mul (le_of_lt hAR) _

end VectorDatabase

open VectorDatabase in
/-- C7 counterexample: the claim states that comparing with a zero vector
fails with an UndefinedSimilarity error or yields a documented sentinel
rather than an ordinary similarity score.  sklearn's cosine_similarity
raises nothing: it silently substitutes norm 1 for the zero row and returns
0.0, and 0.0 is an ordinary score, attained for example by the orthogonal
nonzero pair (1,0), (0,1), so the zero-vector result is indistinguishable
from a legitimate similarity. -/
theorem c7_counterexample :
    cosSimR (0 : Vec 2) ![1, 0] = 0 ∧ cosSimR (![1, 0] : Vec 2) ![0, 1] = 0 ∧
    (![1, 0] : Vec 2) ≠ 0 ∧ (![0, 1] : Vec 2) ≠ 0 := by
  refine ⟨cosSimR_zero_left _, ?_, ?_, ?_⟩
  · have hdot : dotQ (![1, 0] : Vec 2) ![0, 1] = 0 := by
      simp [dotQ, Fin.sum_univ_two]
    simp [cosSimR, hdot]
  · intro h
    have h0 := congrFun h 0
    simp at h0
  · intro h
    have h1 := congrFun h 1
    simp at h1

open VectorDatabase in
/-- C7 amended: when either argument is the zero vector the similarity
operation raises no error and returns no dedicated sentinel; it silently
returns 0.0 (sklearn replaces the zero norm by 1), a value also produced
for ordinary orthogonal nonzero vectors. -/
theorem c7_zero_vector_silent_zero {d : ℕ} (v : Vec d) :
    cosSimR (0 : Vec d) v = 0 ∧ cosSimR v (0 : Vec d) = 0 :=
  ⟨cosSimR_zero_left v, cosSimR_zero_right v⟩

open VectorDatabase in
/-- C9 counterexample: the claim states similar_to with threshold 1.0
returns only vectors identical (up to floating tolerance, here the numpy
allclose tolerances) to the query.  With vector [2] stored and query [1],
the cosine similarity is exactly 1, so [2] is returned, yet [2] is not
within tolerance of [1]. -/
theorem c9_counterexample :
    (![2] : Vec 1) ∈ (getSimilarVectors [((0 : ℝ), [![2]])] ![1] 1).1 ∧
    ¬ approxEq (![2] : Vec 1) ![1] := by
  have hsum1 : sumSq (![1] : Vec 1) = 1 := by
    simp [sumSq, Fin.sum_univ_one]
  have hsum2 : sumSq (![2] : Vec 1) = 4 := by
    simp [sumSq, Fin.sum_univ_one]
    norm_num
  have hdot : dotQ (![1] : Vec 1) ![2] = 2 := by
    simp [dotQ, Fin.sum_univ_one]
  have hcos : cosSimR (![1] : Vec 1) ![2] = 1 := by
    rw [cosSimR, normR, normR, hsum1, hsum2, hdot]
    rw [if_neg (by norm_num), if_neg (by norm_num)]
    have h4 : Real.sqrt ((4 : ℚ) : ℝ) = 2 := by
      rw [show ((4 : ℚ) : ℝ) = 2 ^ 2 by norm_num, Real.sqrt_sq (by norm_num)]
    have h1 : Real.sqrt ((1 : ℚ) : ℝ) = 1 := by
      rw [show ((1 : ℚ) : ℝ) = (1 : ℝ) by norm_num, Real.sqrt_one]
    rw [h4, h1]
    norm_num
  constructor
  · rw [mem_getSimilarVectors]
    exact ⟨by simp [storedVectors], le_of_eq hcos.symm⟩
  · intro h
    have h0 := h 0
    norm_num [atol, rtol] at h0

open VectorDatabase in
/-- C9 amended: similar_to with threshold 1.0 returns exactly the stored
vectors whose cosine similarity with the query equals 1 (by Cauchy-Schwarz
the similarity never exceeds 1) - the vectors pointing in the same
direction as the query, including non-identical positive scalar multiples,
not only vectors identical up to tolerance. -/
theorem c9_threshold_one_same_direction {d : ℕ} (st : StoreR d) (q v : Vec d) :
    v ∈ (getSimilarVectors st q 1).1 ↔ v ∈ storedVectors st ∧ cosSimR q v = 1 := by
  rw [mem_getSimilarVectors]
  constructor
  · rintro ⟨h1, h2⟩
    exact ⟨h1, le_antisymm (cosSimR_le_one q v) h2⟩
  · rintro ⟨h1, h2⟩
    exact ⟨h1, le_of_eq h2.symm⟩
